import Mathlib

/-!
The v8 / gRPC worker (`pkg/worker/worker.go`).

A shallow embedding of `NewWorker` (the binding loops and the dispatch closure
they register) and of `Worker.Run`, followed by the properties established
about them.

Conventions of the embedding.

* Go `interface{}` values are seen through the one type assertion the worker
  performs on them (`x.(protoreflect.ProtoMessage)`): `Iface`.
* A Go `error` is its `Error()` text; `Option GoError` is a possibly-nil error.
* The libraries the worker calls (`strcase`, `protojson`, `v8go`) are not part
  of the repository; they are the fields of `External`, and every definition
  takes them as a parameter.
* A goroutine body is a function returning the trace of the observable actions
  it performs, in order.
-/

namespace V8Rpc

/-! ## Values crossing the handler boundary -/

/-- A Go error value, identified with the text its `Error()` method returns. -/
abbrev GoError := String

/-- A Go `interface{}` value as the worker observes it. `message m` is any value
whose dynamic type implements `protoreflect.ProtoMessage` (typed nil pointers
included, these are values of `M`); `other` is a value of any other dynamic
type; `nil` is the nil interface. -/
inductive Iface (M : Type) where
  | nil : Iface M
  | message (m : M) : Iface M
  | other (goType : String) : Iface M
deriving DecidableEq

/-- The assertion `o, ok := x.(protoreflect.ProtoMessage)`: the pair of the
asserted interface (`none` is the nil `ProtoMessage` interface left by a failed
assertion) and the `ok` flag. -/
def Iface.assertProtoMessage {M : Type} : Iface M → Option M × Bool
  | .message m => (some m, true)
  | .nil => (none, false)
  | .other _ => (none, false)

/-- Outcome of a call of the decode capability `dec(in)`: it returns an error
(or nil) having left the pointed-to request in the state `req`, or it panics. -/
inductive DecResult (M : Type) where
  | returned (req : Iface M) (err : Option GoError) : DecResult M
  | panicked : DecResult M
deriving DecidableEq

/-- Outcome of a call of `methodDesc.Handler`: it returns `(out, err)` or panics. -/
inductive HandlerResult (M : Type) where
  | returned (out : Iface M) (err : Option GoError) : HandlerResult M
  | panicked : HandlerResult M
deriving DecidableEq

/-- The type of `grpc.MethodDesc.Handler`, applied by the worker to
`ref.Client`, `context.Background()`, the decode closure and a nil interceptor;
the two constant arguments are left out. -/
abbrev Handler (C M : Type) := C → (Iface M → DecResult M) → HandlerResult M

/-- The Go type `grpc.MethodDesc`. -/
structure MethodDesc (C M : Type) where
  MethodName : String
  Handler : Handler C M

/-- The Go type `grpc.ServiceDesc`, with the fields the worker reads. -/
structure ServiceDesc (C M : Type) where
  ServiceName : String
  Methods : List (MethodDesc C M)

/-- The Go type `ServiceRef` of the worker package. -/
structure ServiceRef (C M : Type) where
  Description : ServiceDesc C M
  Client : C

/-! ## Templates -/

/-- A `v8go.ObjectTemplate`, as the sequence of its `Set(key, value)` calls in
the order they were made. -/
abbrev ObjectTemplate (α : Type) := List (String × α)

/-- The call `t.Set(key, value)`. -/
def ObjectTemplate.Set {α : Type} (t : ObjectTemplate α) (key : String) (value : α) :
    ObjectTemplate α :=
  t ++ [(key, value)]

/-- The function literal of line 41 as a closure: it reads the variables `ref`
and `methodDesc` when it is called, so it is determined by WHICH instance of
each of the two loop variables it captured. -/
structure FunctionTemplate where
  ref : Nat
  methodDesc : Nat
deriving DecidableEq

/-! ## The libraries the worker calls -/

/-- The library functions used by the worker. `M` is the type of proto
messages, `V` the type of script values (`*v8go.Value`).

* `ToLowerCamel` is `strcase.ToLowerCamel`;
* `Unmarshal b m` is `protojson.Unmarshal(b, m)`: the contents of `m` after the
  call and the error returned;
* `Marshal o` is `protojson.Marshal(o)`, `o` possibly the nil interface;
* `JSONParse` is `v8go.JSONParse` in the context of the worker;
* `JSONStringify` is `v8go.JSONStringify` in the context of the worker;
* `ValueString` is the method `(*v8go.Value).String`;
* `NewContext global` tells whether `v8go.NewContext(iso, global)` returns a
  context for the global template `global` (`true`) or the engine aborts the
  process while instantiating it (`false`); what it does with a key that was
  set twice is fixed by the version of the library, which the sources do not
  pin. -/
structure External (M V : Type) where
  ToLowerCamel : String → String
  Unmarshal : String → M → M × Option GoError
  Marshal : Option M → Except GoError String
  JSONParse : String → Except GoError V
  JSONStringify : V → Except GoError String
  ValueString : V → String
  NewContext : ObjectTemplate (ObjectTemplate FunctionTemplate) → Bool

/-! ## The dispatch closure (worker.go, lines 41-88) -/

/-- An observable action of the dispatch goroutine. `Reject text` is
`r.Reject(v)` for `v` the script string made by `v8go.NewValue(iso, text)`;
`Panic` is a panic unwinding the goroutine. -/
inductive Event (V : Type) where
  | Resolve (v : V) : Event V
  | Reject (text : String) : Event V
  | ReleaseResolver : Event V
  | ReleaseInfo : Event V
  | Panic : Event V
deriving DecidableEq

/-- Whether an action settles the deferred value. -/
def Event.isSettlement {V : Type} : Event V → Bool
  | .Resolve _ => true
  | .Reject _ => true
  | _ => false

/-- The settlements of a trace, in order. -/
def settlements {V : Type} (trace : List (Event V)) : List (Event V) :=
  trace.filter Event.isSettlement

/-- The decode closure handed to the handler (lines 50-57). `args` is
`info.Args()`; indexing it at `0` panics when the script passed no argument. -/
def decodeClosure {M V : Type} (ext : External M V) (args : List V)
    (input : Iface M) : DecResult M :=
  match input.assertProtoMessage with
  | (some i, true) =>
    match args with
    | [] => .panicked
    | a :: _ => .returned (.message (ext.Unmarshal (ext.ValueString a) i).1) none
  | _ => .returned input (some "input type not proto message")

/-- Lines 68-84: encode `o`, parse the text, settle. -/
def marshalAndSettle {M V : Type} (ext : External M V) (o : Option M) : List (Event V) :=
  match ext.Marshal o with
  | .error err => [.Reject err]
  | .ok res =>
    match ext.JSONParse res with
    | .error err => [.Reject err]
    | .ok v => [.Resolve v]

/-- Lines 59-84: the actions of the goroutine on the pair `(out, err)` returned
by the handler. -/
def settle {M V : Type} (ext : External M V) (out : Iface M) (err : Option GoError) :
    List (Event V) :=
  match out.assertProtoMessage with
  | (o, ook) =>
    if !ook then
      if err ≠ none then [.Reject "output not a proto message"]
      else marshalAndSettle ext o
    else marshalAndSettle ext o

/-- The goroutine started by a bound callable (lines 45-85), for the method
description and service reference the closure reads at that time: the handler
is called with the client and the decode closure, the result is settled, and
the two deferred releases run last, in reverse order of their defer statements. -/
def dispatch {C M V : Type} (ext : External M V) (methodDesc : MethodDesc C M)
    (ref : ServiceRef C M) (args : List V) : List (Event V) :=
  (match methodDesc.Handler ref.Client (decodeClosure ext args) with
    | .panicked => [.Panic]
    | .returned out err => settle ext out err)
  ++ [.ReleaseResolver, .ReleaseInfo]

/-! ## Binding (worker.go, lines 27-98) -/

/-- The loop of `strings.Split(s, ".")` over the characters of `s`; `cur` is the
segment being read, most recent character first. -/
def splitDotAux : List Char → List Char → List (List Char)
  | cur, [] => [cur.reverse]
  | cur, c :: cs =>
    if c = '.' then cur.reverse :: splitDotAux [] cs else splitDotAux (c :: cur) cs

/-- The call `strings.Split(s, ".")`. -/
def Split (s : String) : List String :=
  (splitDotAux [] s.data).map String.mk

/-- The instances of the two loop variables that closures hold on to, each with
the value it currently stores. -/
structure Captured (C M : Type) where
  ref : List (ServiceRef C M)
  methodDesc : List (MethodDesc C M)

/-- Scoping of the variables declared by a `for ... range` clause, fixed by the
language version of the module (its `go.mod`, which is not among the sources,
so that neither scoping is established for this repository):
one instance for the whole loop, assigned at each iteration (Go before 1.22),
or a fresh instance for each iteration (Go 1.22 and later). -/
inductive LoopVars where
  | perLoop : LoopVars
  | perIteration : LoopVars
deriving DecidableEq

/-- Start of an iteration of a range loop over the value `x`: `prev` is the
instance used by the previous iteration of the same loop, if there was one.
Returns the stored instances and the index of the instance the body sees. -/
def nextInstance {α : Type} (lv : LoopVars) (prev : Option Nat) (vars : List α) (x : α) :
    List α × Nat :=
  match lv, prev with
  | .perLoop, some i => (vars.set i x, i)
  | _, _ => (vars ++ [x], vars.length)

/-- The inner loop (lines 38-90) over the methods still to visit: every
iteration sets, on the service template, the lower-camel method name to the
closure created in that iteration. -/
def bindMethods {C M V : Type} (lv : LoopVars) (ext : External M V) (refVar : Nat) :
    List (MethodDesc C M) → Option Nat → List (MethodDesc C M) →
    ObjectTemplate FunctionTemplate → List (MethodDesc C M) × ObjectTemplate FunctionTemplate
  | [], _, vars, service => (vars, service)
  | md :: rest, prev, vars, service =>
    match nextInstance lv prev vars md with
    | (vars1, methodVar) =>
      bindMethods lv ext refVar rest (some methodVar) vars1
        (service.Set (ext.ToLowerCamel md.MethodName) ⟨refVar, methodVar⟩)

/-- The outer loop (lines 34-93) over the service references still to visit.
`none` is the index-out-of-range panic of `strings.Split(...)[1]` on a service
name without a dot. -/
def bindServices {C M V : Type} (lv : LoopVars) (ext : External M V) :
    List (ServiceRef C M) → Option Nat → Captured C M →
    ObjectTemplate (ObjectTemplate FunctionTemplate) →
    Option (Captured C M × ObjectTemplate (ObjectTemplate FunctionTemplate))
  | [], _, vars, global => some (vars, global)
  | r :: rest, prev, vars, global =>
    match nextInstance lv prev vars.ref r with
    | (refs1, refVar) =>
      match (Split r.Description.ServiceName)[1]? with
      | none => none
      | some segment =>
        match bindMethods lv ext refVar r.Description.Methods none vars.methodDesc [] with
        | (methods1, service) =>
          bindServices lv ext rest (some refVar) ⟨refs1, methods1⟩
            (global.Set (ext.ToLowerCamel segment) service)

/-- The `v8go.Context` of a worker: the global template it was created from,
with the variables captured by the closures on that template. -/
structure Context (C M : Type) where
  global : ObjectTemplate (ObjectTemplate FunctionTemplate)
  vars : Captured C M

/-- The Go type `Worker`. -/
structure Worker (C M : Type) where
  v8ctx : Context C M

/-- The function `NewWorker`. `none` when it does not return: the binding loops
panic (line 36), or the engine aborts in `v8go.NewContext` (line 95). -/
def NewWorker {C M V : Type} (lv : LoopVars) (ext : External M V)
    (refs : List (ServiceRef C M)) : Option (Worker C M) :=
  match bindServices lv ext refs none ⟨[], []⟩ [] with
  | none => none
  | some (vars, global) =>
    if ext.NewContext global then some ⟨⟨global, vars⟩⟩ else none

/-- The closure `f` is what `namespace[serviceId][methodId]` was set to by some
pair of `Set` calls. -/
def Worker.registered {C M : Type} (w : Worker C M) (serviceId methodId : String)
    (f : FunctionTemplate) : Prop :=
  ∃ service, (serviceId, service) ∈ w.v8ctx.global ∧ (methodId, f) ∈ service

/-- The method description and the service reference that the closure `f`
reads when a script calls it, after `NewWorker` has returned. -/
def Worker.reads {C M : Type} (w : Worker C M) (f : FunctionTemplate) :
    Option (MethodDesc C M × ServiceRef C M) :=
  match w.v8ctx.vars.methodDesc[f.methodDesc]?, w.v8ctx.vars.ref[f.ref]? with
  | some md, some r => some (md, r)
  | _, _ => none

/-- A script calls the closure `f` with the arguments `args`: the trace of the
goroutine it starts (lines 41-88). -/
def Worker.call {C M V : Type} (ext : External M V) (w : Worker C M) (f : FunctionTemplate)
    (args : List V) : Option (List (Event V)) :=
  match w.reads f with
  | some (md, r) => some (dispatch ext md r args)
  | none => none

/-! ## Running a script (worker.go, lines 100-149) -/

/-- The Go type `v8go.PromiseState`. -/
inductive PromiseState where
  | Pending : PromiseState
  | Fulfilled : PromiseState
  | Rejected : PromiseState
deriving DecidableEq

/-- A `v8go.Promise` when `Run` inspects it: what `p.State()` and `p.Result()`
return (`Run` calls `Result` on a settled promise only). -/
structure Promise (V : Type) where
  State : PromiseState
  Result : V

/-- Outcome of `worker.v8ctx.RunScript(source, origin)`: an error, or a value
together with the promise `res.AsPromise()` yields (`none` when `AsPromise`
returns an error, the value not being a promise). -/
inductive ScriptResult (V : Type) where
  | failed (err : GoError) : ScriptResult V
  | value (res : V) (asPromise : Option (Promise V)) : ScriptResult V

/-- A value sent on the error channel: the error returned by `RunScript`, or
the error `errors.New(text)`. -/
inductive ChanError where
  | runScript (err : GoError) : ChanError
  | errorsNew (text : String) : ChanError
deriving DecidableEq

/-- A send on one of the two channels returned by `Run`. -/
inductive Send (V : Type) where
  | rc (v : V) : Send V
  | ec (err : ChanError) : Send V
deriving DecidableEq

/-- The two callbacks of lines 118-128: `onThen` is attached to the promise by
`p.Then`, `onCatch` by `Catch` to the promise `Then` returned. Each receives
the one argument the engine calls a reaction with. -/
structure Reactions (V : Type) where
  onThen : V → List (Send V)
  onCatch : V → List (Send V)

/-- The later settlement of a promise that was pending. -/
inductive Settlement (V : Type) where
  | fulfilled (value : V) : Settlement V
  | rejected (reason : V) : Settlement V

/-- The reactions run when the promise settles. Fulfilment runs the `Then`
callback, whose return settles the derived promise without a rejection, so the
`Catch` callback stays unused; rejection passes through `Then`, which has no
rejection callback, to the derived promise, and runs the `Catch` callback. -/
def Reactions.fire {V : Type} (k : Reactions V) : Settlement V → List (Send V)
  | .fulfilled value => k.onThen value
  | .rejected reason => k.onCatch reason

/-- State left by the goroutine of `Run` when it ends: the sends it made and the
reactions it attached. -/
structure RunState (V : Type) where
  sent : List (Send V)
  reactions : Option (Reactions V)

/-- The goroutine of `Run` (lines 105-136). -/
def Run {M V : Type} (ext : External M V) : ScriptResult V → RunState V
  | .failed err => ⟨[.ec (.runScript err)], none⟩
  | .value res none => ⟨[.rc res], none⟩
  | .value _ (some p) =>
    if p.State = .Pending then
      ⟨[], some ⟨fun a => [.rc a], fun a => [.ec (.errorsNew (ext.ValueString a))]⟩⟩
    else if p.State = .Fulfilled then ⟨[.rc p.Result], none⟩
    else ⟨[.ec (.errorsNew (ext.ValueString p.Result))], none⟩

/-- All sends of one `Run` call: those of the goroutine, then those of the
reactions if the promise settles later (`later = none`: it never does). -/
def deliveries {M V : Type} (ext : External M V) (r : ScriptResult V)
    (later : Option (Settlement V)) : List (Send V) :=
  (Run ext r).sent ++
    match (Run ext r).reactions, later with
    | some k, some s => k.fire s
    | _, _ => []

/-- Whether the script returned a promise that is still pending when `Run`
inspects it. -/
def ScriptResult.isPending {V : Type} : ScriptResult V → Bool
  | .value _ (some p) => decide (p.State = .Pending)
  | _ => false

/-- The method `Worker.Stringify`. -/
def Stringify {M V : Type} (ext : External M V) (v : V) : Except GoError String :=
  ext.JSONStringify v

/-- The script identifiers on a global template: every service key with the
method keys set on the template stored under it, in the order of the `Set`
calls. -/
def identifiers (global : ObjectTemplate (ObjectTemplate FunctionTemplate)) :
    List (String × List String) :=
  global.map fun entry => (entry.1, entry.2.map Prod.fst)

/-- For every closure on a global template, under the identifiers it was set
at, the trace of calling it with `args`. -/
def callAll {C M V : Type} (ext : External M V) (w : Worker C M) (args : List V) :
    List (String × List (String × Option (List (Event V)))) :=
  w.v8ctx.global.map fun entry =>
    (entry.1, entry.2.map fun method => (method.1, w.call ext method.2 args))

/-- The identifiers `NewWorker` derives for one service reference: the
lower-camel form of element `1` of the split service name, and the lower-camel
forms of the method names. -/
def derivedIdentifiers {C M V : Type} (ext : External M V) (r : ServiceRef C M) :
    String × List String :=
  (ext.ToLowerCamel ((Split r.Description.ServiceName).getD 1 ""),
    r.Description.Methods.map fun md => ext.ToLowerCamel md.MethodName)

/-- Every closure set on the global template reads, from the variables it
captured, a method of a service reference of `refs` together with that same
reference, and is set under the identifiers derived from them. -/
def ReadsOwn {C M V : Type} (ext : External M V) (refs : List (ServiceRef C M))
    (vars : Captured C M) (global : ObjectTemplate (ObjectTemplate FunctionTemplate)) : Prop :=
  ∀ service ∈ global, ∀ entry ∈ service.2,
    ∃ md r, r ∈ refs ∧ md ∈ r.Description.Methods
      ∧ vars.methodDesc[entry.2.methodDesc]? = some md ∧ vars.ref[entry.2.ref]? = some r
      ∧ service.1 = (derivedIdentifiers ext r).1 ∧ entry.1 = ext.ToLowerCamel md.MethodName

/-! ## A concrete instance, for evaluating the definitions -/

/-- No key occurs twice in the list. -/
def noRepeatedKey : List String → Bool
  | [] => true
  | key :: keys => !keys.elem key && noRepeatedKey keys

/-- A global template on which no service key, and on no service template a
method key, was set twice. -/
def noRepeatedIdentifier (global : ObjectTemplate (ObjectTemplate FunctionTemplate)) : Bool :=
  noRepeatedKey (global.map Prod.fst)
    && global.all fun service => noRepeatedKey (service.2.map Prod.fst)

/-- Lower-cases a leading ASCII capital, as `strcase.ToLowerCamel` does on a
single capitalised word. -/
def lowerFirst (s : String) : String :=
  match s.data with
  | [] => ""
  | c :: cs => String.mk ((if 'A' ≤ c ∧ c ≤ 'Z' then Char.ofNat (c.toNat + 32) else c) :: cs)

/-- An instance of the library functions in which a message is its own JSON
text and a script value is the text it was parsed from. The nil message
encodes as the empty object; the texts `"bad"` do not decode or parse; the
engine refuses a template with a key set twice. -/
def sampleExt : External String String where
  ToLowerCamel := lowerFirst
  Unmarshal := fun b m => if b = "bad" then (m, some "proto: invalid JSON") else (b, none)
  Marshal := fun o =>
    match o with
    | none => .ok "\x7b\x7d"
    | some m => if m = "unencodable" then .error "proto: cannot encode" else .ok m
  JSONParse := fun s => if s = "bad" then .error "SyntaxError" else .ok s
  JSONStringify := fun v => .ok v
  ValueString := fun v => v
  NewContext := noRepeatedIdentifier

/-- The instance `sampleExt` with an engine that accepts every template. -/
def lenientExt : External String String :=
  { sampleExt with NewContext := fun _ => true }

/-- A handler of the shape the spec gives handlers: it decodes the argument
into a fresh request, returns the decode error when there is one, and otherwise
answers with `respond` applied to the client and the decoded request. -/
def decodingHandler {C M : Type} (fresh : M) (respond : C → Iface M → Iface M × Option GoError) :
    Handler C M :=
  fun client dec =>
    match dec (.message fresh) with
    | .panicked => .panicked
    | .returned _ (some err) => .returned .nil (some err)
    | .returned req none => .returned (respond client req).1 (respond client req).2

/-- A service reference with the given service name, client and methods. -/
def mkRef {C M : Type} (serviceName : String) (client : C) (methods : List (MethodDesc C M)) :
    ServiceRef C M :=
  ⟨⟨serviceName, methods⟩, client⟩

/-- A method whose handler ignores the argument and returns `(out, err)`. -/
def constMethod {C M : Type} (name : String) (out : Iface M) (err : Option GoError) :
    MethodDesc C M :=
  ⟨name, fun _ _ => .returned out err⟩

/-- A method whose handler decodes the argument and answers with the decoded
request itself as the response message. -/
def echoMethod (name : String) : MethodDesc String String :=
  ⟨name, decodingHandler "" (fun _ req => (req, none))⟩

/-- A method whose handler answers with a message naming the client it was
called with and the method it belongs to. -/
def tagMethod (name : String) : MethodDesc String String :=
  ⟨name, fun client _ => .returned (.message (client ++ "/" ++ name)) none⟩

/-- Two services, `a.Clock` and `b.clock`, deriving the same identifier. -/
def collidingRefs : List (ServiceRef String String) :=
  [mkRef "a.Clock" "clientA" [tagMethod "Now"], mkRef "b.clock" "clientB" [tagMethod "Now"]]

/-- One service whose name has three segments. -/
def nestedRefs : List (ServiceRef String String) :=
  [mkRef "a.b.Clock" "clientA" [tagMethod "Now"]]

/-- Two services of two methods each. -/
def twoServices : List (ServiceRef String String) :=
  [mkRef "pkg.Alpha" "clientA" [tagMethod "First", tagMethod "Second"],
    mkRef "pkg.Beta" "clientB" [tagMethod "Third", tagMethod "Fourth"]]

/-! ## Properties of the dispatch closure -/

/-- Lines 60-65: an output that is not a message, next to an error, is rejected
with the fixed text. -/
theorem settle_of_not_message_of_error {M V : Type} (ext : External M V) (out : Iface M)
    (e : GoError) (hout : out.assertProtoMessage.2 = false) :
    settle ext out (some e) = ([.Reject "output not a proto message"] : List (Event V)) := by
  cases out <;> simp_all [settle, Iface.assertProtoMessage]

/-- Lines 59-68: on a message output the error returned by the handler is not
looked at. -/
theorem settle_of_message {M V : Type} (ext : External M V) (m : M) (err : Option GoError) :
    settle ext (.message m) err = (marshalAndSettle ext (some m) : List (Event V)) := by
  simp [settle, Iface.assertProtoMessage]

/-- Lines 60-68: an output that is not a message, next to a nil error, falls
through to the encoding of the nil message. -/
theorem settle_of_not_message_of_nil {M V : Type} (ext : External M V) (out : Iface M)
    (hout : out.assertProtoMessage.2 = false) :
    settle ext out none = (marshalAndSettle ext none : List (Event V)) := by
  cases out <;> simp_all [settle, Iface.assertProtoMessage]

/-- Lines 68-84 perform one settlement. -/
theorem marshalAndSettle_singleton {M V : Type} (ext : External M V) (o : Option M) :
    ∃ s : Event V, marshalAndSettle ext o = [s] ∧ s.isSettlement = true := by
  unfold marshalAndSettle
  cases ext.Marshal o with
  | error err => exact ⟨.Reject err, rfl, rfl⟩
  | ok res =>
    cases hp : ext.JSONParse res with
    | error err => exact ⟨.Reject err, by simp [hp], rfl⟩
    | ok v => exact ⟨.Resolve v, by simp [hp], rfl⟩

/-- Lines 59-84 perform one settlement. -/
theorem settle_singleton {M V : Type} (ext : External M V) (out : Iface M)
    (err : Option GoError) :
    ∃ s : Event V, settle ext out err = [s] ∧ s.isSettlement = true := by
  cases out with
  | message m => rw [settle_of_message]; exact marshalAndSettle_singleton ext _
  | nil =>
    cases err with
    | none =>
      rw [settle_of_not_message_of_nil ext .nil rfl]; exact marshalAndSettle_singleton ext _
    | some e =>
      rw [settle_of_not_message_of_error ext .nil e rfl]; exact ⟨_, rfl, rfl⟩
  | other t =>
    cases err with
    | none =>
      rw [settle_of_not_message_of_nil ext (.other t) rfl]
      exact marshalAndSettle_singleton ext _
    | some e =>
      rw [settle_of_not_message_of_error ext (.other t) e rfl]; exact ⟨_, rfl, rfl⟩

/-- The trace of the goroutine when the handler returns. -/
theorem dispatch_of_returned {C M V : Type} (ext : External M V) (md : MethodDesc C M)
    (ref : ServiceRef C M) (args : List V) (out : Iface M) (err : Option GoError)
    (h : md.Handler ref.Client (decodeClosure ext args) = .returned out err) :
    dispatch ext md ref args = settle ext out err ++ [.ReleaseResolver, .ReleaseInfo] := by
  simp [dispatch, h]

/-- The deferred releases are no settlements. -/
theorem settlements_append_releases {V : Type} (t : List (Event V)) :
    settlements (t ++ [.ReleaseResolver, .ReleaseInfo]) = settlements t := by
  simp [settlements, Event.isSettlement]

/-- When the handler returns a non-nil error together with an output that is
not a proto message, the goroutine rejects the deferred value with the fixed
text "output not a proto message", whatever the text of the error. -/
theorem dispatch_rejects_non_message_with_error {C M V : Type} (ext : External M V)
    (md : MethodDesc C M) (ref : ServiceRef C M) (args : List V) (out : Iface M) (e : GoError)
    (h : md.Handler ref.Client (decodeClosure ext args) = .returned out (some e))
    (hout : out.assertProtoMessage.2 = false) :
    dispatch ext md ref args
        = [.Reject "output not a proto message", .ReleaseResolver, .ReleaseInfo]
      ∧ settlements (dispatch ext md ref args) = [.Reject "output not a proto message"] := by
  rw [dispatch_of_returned ext md ref args out (some e) h,
    settle_of_not_message_of_error ext out e hout]
  exact ⟨rfl, rfl⟩

/-- C1, the code at the failing input: when the handler returns a non-nil error
next to an output of a message type (a typed nil pointer included), the error
is not looked at; the goroutine encodes the output and, the encoding and the
parse succeeding, resolves the deferred value. The one settlement is that
Resolve, so the deferred value is not rejected, with the text of the error or
with any other. -/
theorem dispatch_resolves_failed_call {C M V : Type} (ext : External M V)
    (md : MethodDesc C M) (ref : ServiceRef C M) (args : List V) (m : M) (e : GoError)
    (res : String) (v : V)
    (h : md.Handler ref.Client (decodeClosure ext args) = .returned (.message m) (some e))
    (hM : ext.Marshal (some m) = .ok res) (hP : ext.JSONParse res = .ok v) :
    settlements (dispatch ext md ref args) = [.Resolve v]
      ∧ ∀ text, Event.Reject text ∉ settlements (dispatch ext md ref args) := by
  have hs : settlements (dispatch ext md ref args) = [.Resolve v] := by
    rw [dispatch_of_returned ext md ref args (.message m) (some e) h,
      settlements_append_releases, settle_of_message]
    simp [marshalAndSettle, hM, hP, settlements, Event.isSettlement]
  refine ⟨hs, ?_⟩
  intro text hmem
  rw [hs] at hmem
  simp at hmem

/-- C1, witness: a handler failing with the error "boom" next to a message
output that encodes as the empty object. -/
theorem dispatch_resolves_failed_call_witness :
    settlements (dispatch sampleExt (constMethod "Now" (.message "\x7b\x7d") (some "boom"))
        (mkRef "pkg.Clock" "c" []) ["x"]) = [.Resolve "\x7b\x7d"]
      ∧ ∀ text, Event.Reject text ∉ settlements (dispatch sampleExt
          (constMethod "Now" (.message "\x7b\x7d") (some "boom"))
          (mkRef "pkg.Clock" "c" []) ["x"]) :=
  dispatch_resolves_failed_call sampleExt (constMethod "Now" (.message "\x7b\x7d") (some "boom"))
    (mkRef "pkg.Clock" "c" []) ["x"] "\x7b\x7d" "boom" "\x7b\x7d" "\x7b\x7d" rfl rfl rfl

/-- C4, the code at the failing input: when the handler returns an output that
is not a proto message together with a nil error, the goroutine goes on to
encode the nil message; with the encoding and the parse succeeding, the
deferred value is resolved, not rejected. -/
theorem dispatch_resolves_non_message_without_error {C M V : Type} (ext : External M V)
    (md : MethodDesc C M) (ref : ServiceRef C M) (args : List V) (out : Iface M)
    (res : String) (v : V)
    (h : md.Handler ref.Client (decodeClosure ext args) = .returned out none)
    (hout : out.assertProtoMessage.2 = false)
    (hM : ext.Marshal none = .ok res) (hP : ext.JSONParse res = .ok v) :
    settlements (dispatch ext md ref args) = [.Resolve v] := by
  rw [dispatch_of_returned ext md ref args out none h, settlements_append_releases,
    settle_of_not_message_of_nil ext out hout]
  simp [marshalAndSettle, hM, hP, settlements, Event.isSettlement]

/-- C4, witness: a handler returning the nil interface and a nil error. -/
theorem dispatch_resolves_non_message_without_error_witness :
    settlements (dispatch sampleExt (constMethod "Now" .nil none)
      (mkRef "pkg.Clock" "c" []) ["x"]) = [.Resolve "\x7b\x7d"] :=
  dispatch_resolves_non_message_without_error sampleExt (constMethod "Now" .nil none)
    (mkRef "pkg.Clock" "c" []) ["x"] .nil "\x7b\x7d" "\x7b\x7d" rfl rfl rfl rfl

/-- C5, the code at the failing input: on a message the decode closure returns
a nil error whatever error `protojson.Unmarshal` returned, so a handler that
decodes and then answers is settled on whatever `Unmarshal` left in the
request, exactly as for a decodable argument. -/
theorem dispatch_ignores_unmarshal_error {C M V : Type} (ext : External M V) (name : String)
    (fresh : M) (respond : C → Iface M → Iface M × Option GoError) (ref : ServiceRef C M)
    (a : V) (rest : List V) :
    decodeClosure ext (a :: rest) (.message fresh)
        = .returned (.message (ext.Unmarshal (ext.ValueString a) fresh).1) none
      ∧ dispatch ext ⟨name, decodingHandler fresh respond⟩ ref (a :: rest)
        = settle ext
            (respond ref.Client (.message (ext.Unmarshal (ext.ValueString a) fresh).1)).1
            (respond ref.Client (.message (ext.Unmarshal (ext.ValueString a) fresh).1)).2
          ++ [.ReleaseResolver, .ReleaseInfo] := by
  have hd : decodeClosure ext (a :: rest) (.message fresh)
      = .returned (.message (ext.Unmarshal (ext.ValueString a) fresh).1) none := by
    simp [decodeClosure, Iface.assertProtoMessage]
  refine ⟨hd, ?_⟩
  apply dispatch_of_returned
  simp [decodingHandler, hd]

/-- C6: whenever the handler returns (as it does on every invocation with at
least one argument unless it panics by itself), whatever output and error it
returns and whatever the encoding and the parse give, the trace of the dispatch
goroutine holds exactly one settlement, a Resolve or a Reject. -/
theorem dispatch_settles_exactly_once {C M V : Type} (ext : External M V)
    (md : MethodDesc C M) (ref : ServiceRef C M) (args : List V) (out : Iface M)
    (err : Option GoError)
    (h : md.Handler ref.Client (decodeClosure ext args) = .returned out err) :
    ∃ s : Event V, settlements (dispatch ext md ref args) = [s]
      ∧ ((∃ v, s = .Resolve v) ∨ (∃ text, s = .Reject text)) := by
  obtain ⟨s, hs, hset⟩ := settle_singleton ext out err
  refine ⟨s, ?_, ?_⟩
  · rw [dispatch_of_returned ext md ref args out err h, settlements_append_releases, hs]
    simp [settlements, hset]
  · cases s with
    | Resolve v => exact Or.inl ⟨v, rfl⟩
    | Reject text => exact Or.inr ⟨text, rfl⟩
    | ReleaseResolver => simp [Event.isSettlement] at hset
    | ReleaseInfo => simp [Event.isSettlement] at hset
    | Panic => simp [Event.isSettlement] at hset

/-- C6, witness: a decoding handler called with one argument. -/
theorem dispatch_settles_exactly_once_witness :
    ∃ s : Event String, settlements (dispatch sampleExt (echoMethod "Now")
        (mkRef "pkg.Clock" "c" []) ["x"]) = [s]
      ∧ ((∃ v, s = .Resolve v) ∨ (∃ text, s = .Reject text)) :=
  dispatch_settles_exactly_once sampleExt (echoMethod "Now") (mkRef "pkg.Clock" "c" []) ["x"]
    (.message "x") none rfl

/-- C7: when the handler returns a response message, and the encoding of that
message and the parse of the encoded text succeed, the deferred value is
resolved with the parsed value and not rejected; and whenever stringifying a
parsed value gives back the JSON content of the text it was parsed from, the
JSON form of the resolved value is the JSON encoding of the response. -/
theorem dispatch_resolves_with_parsed_encoding {C M V : Type} (ext : External M V)
    (md : MethodDesc C M) (ref : ServiceRef C M) (args : List V) (m : M)
    (res : String) (v : V) (sameJSON : String → String → Prop)
    (h : md.Handler ref.Client (decodeClosure ext args) = .returned (.message m) none)
    (hM : ext.Marshal (some m) = .ok res) (hP : ext.JSONParse res = .ok v)
    (hround : ∀ s u t, ext.JSONParse s = .ok u → ext.JSONStringify u = .ok t → sameJSON t s) :
    settlements (dispatch ext md ref args) = [.Resolve v]
      ∧ ∀ t, Stringify ext v = .ok t → sameJSON t res := by
  constructor
  · rw [dispatch_of_returned ext md ref args (.message m) none h, settlements_append_releases,
      settle_of_message]
    simp [marshalAndSettle, hM, hP, settlements, Event.isSettlement]
  · intro t ht
    exact hround res v t hP ht

/-- C7, witness: a decoding handler answering with the decoded request. -/
theorem dispatch_resolves_with_parsed_encoding_witness :
    settlements (dispatch sampleExt (echoMethod "Now") (mkRef "pkg.Clock" "c" []) ["x"])
        = [.Resolve "x"]
      ∧ ∀ t, Stringify sampleExt "x" = .ok t → t = "x" :=
  dispatch_resolves_with_parsed_encoding sampleExt (echoMethod "Now")
    (mkRef "pkg.Clock" "c" []) ["x"] "x" "x" "x" (fun t s => t = s) rfl rfl rfl
    (by
      intro s u t hp hs
      simp only [sampleExt] at hp hs
      split at hp
      · cases hp
      · cases hp; cases hs; rfl)

/-! ## Properties of the binding loops -/

/-- The inner loop sets the lower-camel method names, in order. -/
theorem bindMethods_keys {C M V : Type} (lv : LoopVars) (ext : External M V) (refVar : Nat)
    (ms : List (MethodDesc C M)) :
    ∀ (prev : Option Nat) (vars : List (MethodDesc C M))
      (service : ObjectTemplate FunctionTemplate),
      (bindMethods lv ext refVar ms prev vars service).2.map Prod.fst
        = service.map Prod.fst ++ ms.map (fun md => ext.ToLowerCamel md.MethodName) := by
  induction ms with
  | nil => intro prev vars service; simp [bindMethods]
  | cons md rest ih =>
    intro prev vars service
    simp only [bindMethods]
    rw [ih]
    simp [ObjectTemplate.Set]

/-- The outer loop does not panic on names of at least two segments, and sets
the derived identifiers of every reference, in order. -/
theorem bindServices_identifiers {C M V : Type} (lv : LoopVars) (ext : External M V)
    (refs : List (ServiceRef C M)) :
    ∀ (prev : Option Nat) (vars : Captured C M)
      (global : ObjectTemplate (ObjectTemplate FunctionTemplate)),
      (∀ r ∈ refs, 2 ≤ (Split r.Description.ServiceName).length) →
      ∃ vars1 global1, bindServices lv ext refs prev vars global = some (vars1, global1)
        ∧ identifiers global1 = identifiers global ++ refs.map (derivedIdentifiers ext) := by
  induction refs with
  | nil => intro prev vars global _; exact ⟨vars, global, rfl, by simp⟩
  | cons r rest ih =>
    intro prev vars global hlen
    have hr : 2 ≤ (Split r.Description.ServiceName).length := hlen r (List.mem_cons_self _ _)
    obtain ⟨segment, hseg⟩ : ∃ segment, (Split r.Description.ServiceName)[1]? = some segment :=
      ⟨(Split r.Description.ServiceName)[1], List.getElem?_eq_getElem (by omega)⟩
    obtain ⟨vars1, global1, hrun, hids⟩ :=
      ih (some (nextInstance lv prev vars.ref r).2)
        ⟨(nextInstance lv prev vars.ref r).1,
          (bindMethods lv ext (nextInstance lv prev vars.ref r).2 r.Description.Methods none
            vars.methodDesc []).1⟩
        (global.Set (ext.ToLowerCamel segment)
          (bindMethods lv ext (nextInstance lv prev vars.ref r).2 r.Description.Methods none
            vars.methodDesc []).2)
        (fun x hx => hlen x (List.mem_cons_of_mem _ hx))
    refine ⟨vars1, global1, ?_, ?_⟩
    · simp only [bindServices, hseg]
      exact hrun
    · rw [hids]
      simp [identifiers, ObjectTemplate.Set, derivedIdentifiers, bindMethods_keys, hseg]

/-- The code of `NewWorker` has no check of its own on the identifiers: on
service names of at least two segments the loops end with one `Set` for each
reference, in input order, under the identifier derived from that reference,
and `NewWorker` returns a worker exactly when the engine accepts that
template. -/
theorem NewWorker_leaves_collisions_to_engine {C M V : Type} (lv : LoopVars)
    (ext : External M V) (refs : List (ServiceRef C M))
    (h : ∀ r ∈ refs, 2 ≤ (Split r.Description.ServiceName).length) :
    ∃ vars global, identifiers global = refs.map (derivedIdentifiers ext)
      ∧ NewWorker lv ext refs
        = if ext.NewContext global then some ⟨⟨global, vars⟩⟩ else none := by
  obtain ⟨vars1, global1, hrun, hids⟩ := bindServices_identifiers lv ext refs none ⟨[], []⟩ [] h
  refine ⟨vars1, global1, ?_, ?_⟩
  · simpa [identifiers] using hids
  · simp [NewWorker, hrun]

/-- The services `a.Clock` and `b.clock` both derive the identifier `clock`.
With an engine that refuses a key set twice `NewWorker` does not return; with
one that accepts every template it returns a worker on whose global template
`clock` was set twice. -/
theorem NewWorker_on_colliding_identifiers :
    (collidingRefs.map fun r => (derivedIdentifiers sampleExt r).1) = ["clock", "clock"]
      ∧ (NewWorker .perLoop sampleExt collidingRefs).isNone = true
      ∧ (NewWorker .perIteration sampleExt collidingRefs).isNone = true
      ∧ (NewWorker .perLoop lenientExt collidingRefs).map
          (fun w => identifiers w.v8ctx.global) = some [("clock", ["now"]), ("clock", ["now"])]
      ∧ (NewWorker .perIteration lenientExt collidingRefs).map
          (fun w => identifiers w.v8ctx.global) = some [("clock", ["now"]), ("clock", ["now"])] := by
  refine ⟨by decide, by rfl, by rfl, by rfl, by rfl⟩

/-- C3, the code at the failing input: for the service name `a.b.Clock`, whose
final segment `Clock` has the lower-camel form `clock`, the only identifier set
on the global template is `b`, from the second segment. -/
theorem NewWorker_binds_second_segment :
    Split "a.b.Clock" = ["a", "b", "Clock"]
      ∧ sampleExt.ToLowerCamel "Clock" = "clock"
      ∧ (NewWorker .perLoop sampleExt nestedRefs).map
          (fun w => identifiers w.v8ctx.global) = some [("b", ["now"])]
      ∧ (NewWorker .perIteration sampleExt nestedRefs).map
          (fun w => identifiers w.v8ctx.global) = some [("b", ["now"])] := by
  refine ⟨by decide, by decide, by rfl, by rfl⟩

/-- A lookup that succeeds still succeeds after an append. -/
theorem getElem_opt_append_of_some {α : Type} (l l2 : List α) (i : Nat) (x : α)
    (h : l[i]? = some x) : (l ++ l2)[i]? = some x := by
  have hi : i < l.length := by
    by_contra hn
    rw [List.getElem?_eq_none (by omega)] at h
    cases h
  rw [List.getElem?_append_left hi]
  exact h

/-- The element appended is found at the former length. -/
theorem getElem_opt_append_length {α : Type} (l l2 : List α) (x : α) :
    (l ++ x :: l2)[l.length]? = some x := by
  rw [List.getElem?_append_right (le_refl _)]
  simp

/-- With a fresh range variable for each iteration, the inner loop appends the
methods to the captured instances, and every closure it sets captured the
instance holding the method it is named after. -/
theorem bindMethods_perIteration {C M V : Type} (ext : External M V) (refVar : Nat)
    (ms : List (MethodDesc C M)) :
    ∀ (prev : Option Nat) (vars : List (MethodDesc C M))
      (service : ObjectTemplate FunctionTemplate),
      ∃ added : ObjectTemplate FunctionTemplate,
        bindMethods .perIteration ext refVar ms prev vars service
            = (vars ++ ms, service ++ added)
          ∧ ∀ entry ∈ added, entry.2.ref = refVar
            ∧ ∃ md ∈ ms, (vars ++ ms)[entry.2.methodDesc]? = some md
              ∧ entry.1 = ext.ToLowerCamel md.MethodName := by
  induction ms with
  | nil => intro prev vars service; exact ⟨[], by simp [bindMethods], by simp⟩
  | cons md rest ih =>
    intro prev vars service
    obtain ⟨added, hrun, hadded⟩ := ih (some vars.length) (vars ++ [md])
      (service.Set (ext.ToLowerCamel md.MethodName) ⟨refVar, vars.length⟩)
    refine ⟨(ext.ToLowerCamel md.MethodName, ⟨refVar, vars.length⟩) :: added, ?_, ?_⟩
    · simp only [bindMethods, nextInstance]
      rw [hrun]
      simp [ObjectTemplate.Set]
    · intro entry hentry
      rcases List.mem_cons.mp hentry with rfl | hmem
      · exact ⟨rfl, md, List.mem_cons_self _ _, getElem_opt_append_length _ _ _, rfl⟩
      · obtain ⟨href, md1, hmd1, hget, hname⟩ := hadded entry hmem
        refine ⟨href, md1, List.mem_cons_of_mem _ hmd1, ?_, hname⟩
        simpa using hget

/-- With a fresh range variable for each iteration, the outer loop keeps
`ReadsOwn`. -/
theorem bindServices_perIteration {C M V : Type} (ext : External M V)
    (refs : List (ServiceRef C M)) :
    ∀ (prev : Option Nat) (vars vars1 : Captured C M)
      (global global1 : ObjectTemplate (ObjectTemplate FunctionTemplate))
      (seen : List (ServiceRef C M)),
      ReadsOwn ext seen vars global →
      bindServices .perIteration ext refs prev vars global = some (vars1, global1) →
      ReadsOwn ext (seen ++ refs) vars1 global1 := by
  induction refs with
  | nil =>
    intro prev vars vars1 global global1 seen hinv hrun
    simp only [bindServices, Option.some.injEq, Prod.mk.injEq] at hrun
    obtain ⟨rfl, rfl⟩ := hrun
    simpa using hinv
  | cons r rest ih =>
    intro prev vars vars1 global global1 seen hinv hrun
    simp only [bindServices, nextInstance] at hrun
    cases hseg : (Split r.Description.ServiceName)[1]? with
    | none => simp [hseg] at hrun
    | some segment =>
      obtain ⟨added, hadd, hadded⟩ :=
        bindMethods_perIteration ext vars.ref.length r.Description.Methods none
          vars.methodDesc []
      simp only [hseg, hadd] at hrun
      have hstep := ih _ _ _ _ _ (seen ++ [r]) ?_ hrun
      · simpa using hstep
      · intro service hservice entry hentry
        simp only [ObjectTemplate.Set, List.mem_append, List.mem_singleton] at hservice
        rcases hservice with hold | rfl
        · obtain ⟨md, r0, hr0, hmd, hgm, hgr, hsid, hmid⟩ := hinv service hold entry hentry
          exact ⟨md, r0, List.mem_append_left _ hr0, hmd,
            getElem_opt_append_of_some _ _ _ _ hgm, getElem_opt_append_of_some _ _ _ _ hgr,
            hsid, hmid⟩
        · simp only [List.nil_append] at hentry
          obtain ⟨href, md, hmd, hget, hname⟩ := hadded entry hentry
          refine ⟨md, r, by simp, hmd, hget, ?_, ?_, hname⟩
          · rw [href]; exact getElem_opt_append_length _ _ _
          · simp [derivedIdentifiers, hseg]

/-- With a fresh range variable for each iteration, every callable on the
namespace runs the handler of the method it is named after, with the client of
the service reference it is named after. -/
theorem NewWorker_perIteration_reads_own {C M V : Type} (ext : External M V)
    (refs : List (ServiceRef C M)) (w : Worker C M)
    (h : NewWorker .perIteration ext refs = some w) (serviceId methodId : String)
    (f : FunctionTemplate) (hf : w.registered serviceId methodId f) (args : List V) :
    ∃ md r, r ∈ refs ∧ md ∈ r.Description.Methods
      ∧ serviceId = (derivedIdentifiers ext r).1
      ∧ methodId = ext.ToLowerCamel md.MethodName
      ∧ w.reads f = some (md, r)
      ∧ w.call ext f args = some (dispatch ext md r args) := by
  unfold NewWorker at h
  cases hrun : bindServices .perIteration ext refs none ⟨[], []⟩ [] with
  | none => simp [hrun] at h
  | some res =>
    obtain ⟨vars1, global1⟩ := res
    simp only [hrun] at h
    split at h
    swap
    · cases h
    simp only [Option.some.injEq] at h
    subst h
    have hinv := bindServices_perIteration ext refs none ⟨[], []⟩ vars1 [] global1 []
      (by intro service hservice; cases hservice) hrun
    obtain ⟨service, hservice, hentry⟩ := hf
    obtain ⟨md, r, hr, hmd, hgm, hgr, hsid, hmid⟩ :=
      hinv (serviceId, service) hservice (methodId, f) hentry
    refine ⟨md, r, by simpa using hr, hmd, hsid, hmid, ?_, ?_⟩
    · simp [Worker.reads, hgm, hgr]
    · simp [Worker.call, Worker.reads, hgm, hgr]

/-- Every closure the inner loop sets captured the instance of `ref` that the
enclosing iteration of the outer loop sees. -/
theorem bindMethods_ref {C M V : Type} (lv : LoopVars) (ext : External M V) (refVar : Nat)
    (ms : List (MethodDesc C M)) :
    ∀ (prev : Option Nat) (vars : List (MethodDesc C M))
      (service : ObjectTemplate FunctionTemplate),
      (∀ entry ∈ service, entry.2.ref = refVar) →
      ∀ entry ∈ (bindMethods lv ext refVar ms prev vars service).2, entry.2.ref = refVar := by
  induction ms with
  | nil => intro prev vars service h; simpa [bindMethods] using h
  | cons md rest ih =>
    intro prev vars service h
    simp only [bindMethods]
    apply ih
    intro entry hentry
    simp only [ObjectTemplate.Set, List.mem_append, List.mem_singleton] at hentry
    rcases hentry with hold | rfl
    · exact h entry hold
    · rfl

/-- With range variables scoped to the loop, the outer loop uses the single
instance `0` of `ref`: every closure captured it, and when the loop ends it
holds the last service reference visited. -/
theorem bindServices_perLoop {C M V : Type} (ext : External M V)
    (refs : List (ServiceRef C M)) :
    ∀ (prev : Option Nat) (vars vars1 : Captured C M)
      (global global1 : ObjectTemplate (ObjectTemplate FunctionTemplate)),
      (∀ service ∈ global, ∀ entry ∈ service.2, entry.2.ref = 0) →
      (prev = none ∧ vars.ref = [] ∨ prev = some 0 ∧ ∃ x, vars.ref = [x]) →
      bindServices .perLoop ext refs prev vars global = some (vars1, global1) →
      (∀ service ∈ global1, ∀ entry ∈ service.2, entry.2.ref = 0)
        ∧ vars1.ref = (match refs.getLast? with
            | some r => [r]
            | none => vars.ref) := by
  induction refs with
  | nil =>
    intro prev vars vars1 global global1 hg _ hrun
    simp only [bindServices, Option.some.injEq, Prod.mk.injEq] at hrun
    obtain ⟨rfl, rfl⟩ := hrun
    exact ⟨hg, rfl⟩
  | cons r rest ih =>
    intro prev vars vars1 global global1 hg hprev hrun
    have hnext : nextInstance .perLoop prev vars.ref r = ([r], 0) := by
      rcases hprev with ⟨rfl, hv⟩ | ⟨rfl, x, hv⟩ <;> simp [nextInstance, hv]
    simp only [bindServices, hnext] at hrun
    cases hseg : (Split r.Description.ServiceName)[1]? with
    | none => simp [hseg] at hrun
    | some segment =>
      simp only [hseg] at hrun
      obtain ⟨hall, hlast⟩ := ih (some 0) _ vars1 _ global1 (by
        intro service hservice entry hentry
        simp only [ObjectTemplate.Set, List.mem_append, List.mem_singleton] at hservice
        rcases hservice with hold | rfl
        · exact hg service hold entry hentry
        · exact bindMethods_ref .perLoop ext 0 r.Description.Methods none vars.methodDesc []
            (by simp) entry hentry) (Or.inr ⟨rfl, r, rfl⟩) hrun
      refine ⟨hall, ?_⟩
      rw [hlast]
      cases rest with
      | nil => simp
      | cons r2 rest2 =>
        obtain ⟨x, hx⟩ : ∃ x, (r2 :: rest2).getLast? = some x := by
          cases hl : (r2 :: rest2).getLast? with
          | none => simp at hl
          | some x => exact ⟨x, rfl⟩
        simp [List.getLast?_cons_cons, hx]

/-- With range variables scoped to the loop, every callable on the namespace
reads, when it is called, the last service reference of the input. -/
theorem NewWorker_perLoop_reads_last_ref {C M V : Type} (ext : External M V)
    (refs : List (ServiceRef C M)) (w : Worker C M)
    (h : NewWorker .perLoop ext refs = some w) (serviceId methodId : String)
    (f : FunctionTemplate) (hf : w.registered serviceId methodId f) :
    w.v8ctx.vars.ref[f.ref]? = refs.getLast? := by
  unfold NewWorker at h
  cases hrun : bindServices .perLoop ext refs none ⟨[], []⟩ [] with
  | none => simp [hrun] at h
  | some res =>
    obtain ⟨vars1, global1⟩ := res
    simp only [hrun] at h
    split at h
    swap
    · cases h
    simp only [Option.some.injEq] at h
    subst h
    obtain ⟨hall, hlast⟩ := bindServices_perLoop ext refs none ⟨[], []⟩ vars1 [] global1
      (by intro service hservice; cases hservice) (Or.inl ⟨rfl, rfl⟩) hrun
    obtain ⟨service, hservice, hentry⟩ := hf
    have href : f.ref = 0 := hall (serviceId, service) hservice (methodId, f) hentry
    have hne : refs ≠ [] := by
      rintro rfl
      simp only [bindServices, Option.some.injEq, Prod.mk.injEq] at hrun
      obtain ⟨_, rfl⟩ := hrun
      cases hservice
    obtain ⟨r, hr⟩ : ∃ r, refs.getLast? = some r := by
      cases hl : refs.getLast? with
      | none => exact absurd (List.getLast?_eq_none_iff.mp hl) hne
      | some r => exact ⟨r, rfl⟩
    simp only [hr] at hlast
    simp [href, hlast, hr]

/-- Two services of two methods each, with range variables scoped to the whole
loop: every callable of a service runs the handler of the last method of that
service, and every callable of either service passes it the client of the last
service reference. -/
theorem NewWorker_closures_read_last_loop_values :
    (NewWorker .perLoop sampleExt twoServices).map (fun w => callAll sampleExt w ["x"])
      = some
        [("alpha",
            [("first", some [.Resolve "clientB/Second", .ReleaseResolver, .ReleaseInfo]),
              ("second", some [.Resolve "clientB/Second", .ReleaseResolver, .ReleaseInfo])]),
          ("beta",
            [("third", some [.Resolve "clientB/Fourth", .ReleaseResolver, .ReleaseInfo]),
              ("fourth", some [.Resolve "clientB/Fourth", .ReleaseResolver, .ReleaseInfo])])] := by
  rfl

/-! ## Properties of `Run` -/

/-- C8: for every outcome of the script body (an error, a value that is not a
promise, a promise already fulfilled or already rejected, a pending promise
that later fulfils or rejects), one `Run` call makes exactly one send in all on
its two channels. -/
theorem Run_delivers_exactly_once {M V : Type} (ext : External M V) (r : ScriptResult V)
    (later : Option (Settlement V)) (h : r.isPending = true → later ≠ none) :
    ∃ s : Send V, deliveries ext r later = [s] := by
  cases r with
  | failed err => exact ⟨.ec (.runScript err), by simp [deliveries, Run]⟩
  | value res asPromise =>
    cases asPromise with
    | none => exact ⟨.rc res, by simp [deliveries, Run]⟩
    | some p =>
      by_cases hp : p.State = .Pending
      · have hl : later ≠ none := h (by simp [ScriptResult.isPending, hp])
        cases later with
        | none => exact absurd rfl hl
        | some s =>
          cases s with
          | fulfilled value =>
            exact ⟨.rc value, by simp [deliveries, Run, hp, Reactions.fire]⟩
          | rejected reason =>
            exact ⟨.ec (.errorsNew (ext.ValueString reason)),
              by simp [deliveries, Run, hp, Reactions.fire]⟩
      · by_cases hf : p.State = .Fulfilled
        · exact ⟨.rc p.Result, by simp [deliveries, Run, hf]⟩
        · exact ⟨.ec (.errorsNew (ext.ValueString p.Result)),
            by simp [deliveries, Run, hp, hf]⟩

/-- C8, witness: a script returning a pending promise that later rejects. -/
theorem Run_delivers_exactly_once_witness :
    ∃ s : Send String, deliveries sampleExt (.value "p" (some ⟨.Pending, ""⟩))
      (some (.rejected "boom")) = [s] :=
  Run_delivers_exactly_once sampleExt (.value "p" (some ⟨.Pending, ""⟩))
    (some (.rejected "boom")) (by intro _; exact Option.some_ne_none _)

/-- C9: `Run` routes the outcome of the script by its four-way classification.
An error of `RunScript` is the one send, on the error channel. A value that is
not a promise is sent unchanged on the result channel. A fulfilled promise
sends its result on the result channel, a rejected one sends the error made
from the text of its result on the error channel. On a pending promise the
goroutine sends nothing, and nothing is sent while it does not settle; its
later fulfilment value goes to the result channel, the error made from its
later rejection reason to the error channel. -/
theorem Run_routes_outcome {M V : Type} (ext : External M V) (err : GoError) (res held v : V)
    (later : Option (Settlement V)) :
    deliveries ext (.failed err) later = [.ec (.runScript err)]
      ∧ deliveries ext (.value res none) later = [.rc res]
      ∧ deliveries ext (.value res (some ⟨.Fulfilled, held⟩)) later = [.rc held]
      ∧ deliveries ext (.value res (some ⟨.Rejected, held⟩)) later
          = [.ec (.errorsNew (ext.ValueString held))]
      ∧ (Run ext (.value res (some ⟨.Pending, held⟩))).sent = []
      ∧ deliveries ext (.value res (some ⟨.Pending, held⟩)) none = []
      ∧ deliveries ext (.value res (some ⟨.Pending, held⟩)) (some (.fulfilled v)) = [.rc v]
      ∧ deliveries ext (.value res (some ⟨.Pending, held⟩)) (some (.rejected v))
          = [.ec (.errorsNew (ext.ValueString v))] := by
  refine ⟨?_, ?_, ?_, ?_, ?_, ?_, ?_, ?_⟩ <;> simp [deliveries, Run, Reactions.fire]

end V8Rpc
